import Mathlib

/-!
# Verification of the budget-tracker core

A shallow embedding, in Lean 4, of the core of the `claude_finances`
budget-tracker repository: the two format parsers (QFX tag-soup and CSV),
the categorization engine, the analytics / repeated-expense detector, and
the transaction-fingerprint utilities; together with theorems settling the
specification claims about them.

Modelling conventions:
* JavaScript numbers are modelled as exact rationals (`ℚ`); `NaN`-producing
  operations are modelled with `Option ℚ` (a parse returning `NaN` is
  `none`) and JS comparisons against `NaN`/`Infinity` quotients, which are
  always false, are modelled explicitly (see `jsDivLeTenth`).
* A JS `Date` is modelled by its `getTime` value: an integer count of
  milliseconds since the epoch.  Date construction from components uses the
  proleptic-Gregorian day count at offset 0 (the claims under study never
  depend on the local-timezone offset of the host).
* Browser / library facilities (DOMParser element extraction, PapaParse row
  splitting, `crypto.subtle` SHA-256, `date-fns` `format`) are external
  collaborators: the values they deliver are taken as inputs, or the
  functions are passed as parameters.
* JS string truthiness (`undefined` and `""` are falsy) is `jsTruthy`.
-/

set_option maxRecDepth 4500

namespace BudgetCore

/-! ## Basic JS-semantics helpers -/

/-- JS truthiness of an optional string: `undefined` and `""` are falsy. -/
def jsTruthy : Option String → Bool
  | none => false
  | some s => s ≠ ""

/-- `x?.textContent || ''`-style defaulting: a falsy value becomes `dflt`. -/
def jsOrDefault (s : Option String) (dflt : String) : String :=
  match s with
  | none => dflt
  | some s => if s = "" then dflt else s

/-- Whitespace recognised by JS `trim` / number parsing (ASCII subset). -/
def jsIsWS (c : Char) : Bool :=
  c = ' ' ∨ c = '\t' ∨ c = '\n' ∨ c = '\r' ∨ c = '\x0b' ∨ c = '\x0c'

/-- JS `String.prototype.trim` (on the char list). -/
def jsTrimList (cs : List Char) : List Char :=
  ((cs.dropWhile jsIsWS).reverse.dropWhile jsIsWS).reverse

/-- JS `String.prototype.trim`. -/
def jsTrim (s : String) : String := String.mk (jsTrimList s.data)

/-- Numeric value of a (non-empty) list of ASCII digits. -/
def digitsToNat (cs : List Char) : Nat :=
  cs.foldl (fun n c => 10 * n + (c.toNat - 48)) 0

/-- JS `parseInt(s, 10)`: skip whitespace, optional sign, leading digits;
`none` models `NaN`. -/
def jsParseInt (s : String) : Option Int :=
  let cs := s.data.dropWhile jsIsWS
  let (sign, cs) : Int × List Char :=
    match cs with
    | '-' :: rest => (-1, rest)
    | '+' :: rest => (1, rest)
    | _ => (1, cs)
  let ds := cs.takeWhile Char.isDigit
  if ds = [] then none else some (sign * digitsToNat ds)

/-- JS `parseFloat`: skip whitespace, optional sign, decimal mantissa with
optional fraction and optional exponent; `none` models `NaN`.  (The
`Infinity` literal has no rational value and is not modelled; no input
exercised by the claims produces it.) -/
def jsParseFloat (s : String) : Option ℚ :=
  let cs := s.data.dropWhile jsIsWS
  let (sign, cs) : ℚ × List Char :=
    match cs with
    | '-' :: rest => (-1, rest)
    | '+' :: rest => (1, rest)
    | _ => (1, cs)
  let intPart := cs.takeWhile Char.isDigit
  let cs := cs.dropWhile Char.isDigit
  let (fracPart, cs) : List Char × List Char :=
    match cs with
    | '.' :: rest => (rest.takeWhile Char.isDigit, rest.dropWhile Char.isDigit)
    | _ => ([], cs)
  if intPart = [] ∧ fracPart = [] then none
  else
    let mantissa : ℚ :=
      (digitsToNat intPart : ℚ) + (digitsToNat fracPart : ℚ) / (10 ^ fracPart.length : ℚ)
    let exp : Int :=
      match cs with
      | c :: rest =>
        if c = 'e' ∨ c = 'E' then
          let (esign, rest2) : Int × List Char :=
            match rest with
            | '-' :: r => (-1, r)
            | '+' :: r => (1, r)
            | _ => (1, rest)
          let eds := rest2.takeWhile Char.isDigit
          if eds = [] then 0 else esign * digitsToNat eds
        else 0
      | [] => 0
    some (sign * mantissa * (10 : ℚ) ^ exp)

/-- Remove every `,` character (thousands separators): `s.replace(/,/g, '')`. -/
def stripCommas (s : String) : String := String.mk (s.data.filter (fun c => c ≠ ','))

/-! ## Calendar arithmetic (model of the JS `Date` value) -/

/-- Days from the epoch (1970-01-01) of a proleptic-Gregorian civil date;
linear in `d`, so out-of-range day components roll over exactly as in JS. -/
def daysFromCivil (y m d : Int) : Int :=
  let y1 := if m ≤ 2 then y - 1 else y
  let era := Int.fdiv y1 400
  let yoe := y1 - era * 400
  let mp := Int.emod (m + 9) 12
  let doy := Int.fdiv (153 * mp + 2) 5 + d - 1
  let doe := yoe * 365 + Int.fdiv yoe 4 - Int.fdiv yoe 100 + doy
  era * 146097 + doe - 719468

/-- `new Date(year, month0, day).getTime()` (month 0-based, with JS month /
day rollover, the 0–99 → 19xx year quirk, and the ±8.64e15 ms validity
range; timezone offset modelled as 0). -/
def mkJSDateMs (yRaw m0 d : Int) : Option Int :=
  let y0 := if 0 ≤ yRaw ∧ yRaw ≤ 99 then yRaw + 1900 else yRaw
  let y := y0 + Int.fdiv m0 12
  let m := Int.emod m0 12 + 1
  let ms := daysFromCivil y m d * 86400000
  if ms < -8640000000000000 ∨ 8640000000000000 < ms then none else some ms

/-- Gregorian leap year. -/
def isLeapYear (y : Int) : Bool := (Int.emod y 4 = 0 ∧ Int.emod y 100 ≠ 0) ∨ Int.emod y 400 = 0

/-- Number of days in a month (1-based month). -/
def daysInMonth (y m : Int) : Int :=
  if m = 2 then (if isLeapYear y then 29 else 28)
  else if m = 4 ∨ m = 6 ∨ m = 9 ∨ m = 11 then 30
  else 31

/-! ## Transaction model -/

inductive TxnType where
  | DEBIT : TxnType
  | CREDIT : TxnType
deriving DecidableEq

structure Transaction where
  id : String
  date : Int
  description : String
  amount : ℚ
  type : TxnType
  categoryId : Option String
  isExcluded : Bool
  source : String
  sourceFile : Option String
  accountId : Option String
  transactionId : Option String
  memo : Option String
  isManuallyCategorized : Bool
deriving DecidableEq

inductive Severity where
  | error : Severity
  | warning : Severity
deriving DecidableEq

structure ParseError where
  line : Option Nat
  field : Option String
  message : String
  severity : Severity
deriving DecidableEq

/-- An id-generation function: the model of `generateTransactionId`
(arguments: date, amount, description, accountId).  The parsers receive it
as a parameter (in the source it lives in `utils` and awaits a platform
crypto API). -/
abbrev IdGen := Int → ℚ → String → Option String → String

/-! ## CSV parser (`parseCSV` in `App.tsx` / the delimited-format parser)

PapaParse (header-bound row splitting) is an external collaborator: the
parser model consumes the list of header-bound records it delivers. -/

/-- A header-bound CSV record; `none` models an absent (`undefined`) field. -/
structure CSVRecord where
  transDate : Option String
  postDate : Option String
  description : Option String
  amount : Option String
  category : Option String
deriving DecidableEq

/-- JS `String.prototype.split` with a single-character separator. -/
def splitOnChar (sep : Char) : List Char → List (List Char)
  | [] => [[]]
  | c :: cs =>
    match splitOnChar sep cs with
    | [] => [[]]
    | g :: gs => if c = sep then [] :: g :: gs else (c :: g) :: gs

/-- `parseCSVDate`: `MM/DD/YYYY` via `split('/')`, `parseInt`, and
`new Date(year, month - 1, day)`. -/
def parseCSVDate (s : String) : Option Int :=
  if s = "" then none
  else
    match splitOnChar '/' s.data with
    | [ms, ds, ys] =>
      match jsParseInt (String.mk ms), jsParseInt (String.mk ds), jsParseInt (String.mk ys) with
      | some m, some d, some y => mkJSDateMs y (m - 1) d
      | _, _, _ => none
    | _ => none

/-- Processing of one CSV data row (the body of the row loop in `parseCSV`);
`index` is the 0-based data-row index, reported as `index + 2`. -/
def csvRowResult (idGen : IdGen) (index : Nat) (r : CSVRecord) : Except ParseError Transaction :=
  if ¬(jsTruthy r.transDate ∧ jsTruthy r.description ∧ jsTruthy r.amount) then
    .error ⟨some (index + 2), none,
      "Missing required fields (Trans. Date, Description, or Amount)", .warning⟩
  else
    let transDate := (r.transDate).getD ""
    let description := (r.description).getD ""
    let amountStr := (r.amount).getD ""
    match parseCSVDate transDate with
    | none => .error ⟨some (index + 2), some "Trans. Date",
        "Invalid date format: " ++ transDate, .error⟩
    | some date =>
      match jsParseFloat (stripCommas amountStr) with
      | none => .error ⟨some (index + 2), some "Amount",
          "Invalid amount: " ++ amountStr, .error⟩
      | some amount =>
        let normalizedAmount := -amount
        let ttype := if normalizedAmount < 0 then TxnType.DEBIT else TxnType.CREDIT
        .ok
          { id := idGen date normalizedAmount description none
            date := date
            description := jsTrim description
            amount := normalizedAmount
            type := ttype
            categoryId := none
            isExcluded := false
            source := "CSV"
            sourceFile := none
            accountId := none
            transactionId := none
            memo :=
              if jsTruthy r.category then some ("Original category: " ++ (r.category).getD "")
              else none
            isManuallyCategorized := false }

/-- The shared row loop of both parsers: per item, append the produced
transaction to the first component or the produced error to the second. -/
def collectRows {α : Type} (f : α → Except ParseError Transaction) (rows : List α) :
    List Transaction × List ParseError :=
  rows.foldl
    (fun (acc : List Transaction × List ParseError) r =>
      match f r with
      | .ok t => (acc.1 ++ [t], acc.2)
      | .error e => (acc.1, acc.2 ++ [e]))
    ([], [])

/-- `parseCSV` over the PapaParse records: per-row processing, collecting
transactions and errors in order, plus the final no-valid-transactions
error. -/
def parseCSV (idGen : IdGen) (rows : List CSVRecord) : List Transaction × List ParseError :=
  let step := collectRows (fun ir => csvRowResult idGen ir.1 ir.2) rows.enum
  if step.1 = [] ∧ rows ≠ [] then
    (step.1, step.2 ++ [⟨none, none, "No valid transactions found in CSV file", .error⟩])
  else step

/-! ## QFX parser (`parseQFX`): per-transaction field processing

DOMParser / `querySelector` extraction is an external collaborator: the
model consumes, per `STMTTRN` element, the text contents delivered by it
(`none` models a missing element). -/

/-- Raw text contents of one `STMTTRN` element. -/
structure StmtTrn where
  trnType : Option String
  dtPosted : Option String
  trnAmt : Option String
  fitId : Option String
  name : Option String
  memo : Option String
deriving DecidableEq

/-- `parseOFXDate`: strip `[...]` and `.mmm` suffixes, take the `YYYYMMDD`
prefix, and validate through `new Date` on an ISO string (which accepts
exactly 4-digit years, months 01–12, and days valid for the month). -/
def parseOFXDate (s : String) : Option Int :=
  if s = "" then none
  else
    let cs := (s.data.takeWhile (fun c => c ≠ '[')).takeWhile (fun c => c ≠ '.')
    match jsParseInt (String.mk (cs.take 4)), jsParseInt (String.mk ((cs.drop 4).take 2)),
        jsParseInt (String.mk ((cs.drop 6).take 2)) with
    | some y, some m, some d =>
      if 1000 ≤ y ∧ y ≤ 9999 ∧ 1 ≤ m ∧ m ≤ 12 ∧ 1 ≤ d ∧ d ≤ daysInMonth y m then
        some (daysFromCivil y m d * 86400000)
      else none
    | _, _, _ => none

/-- Character class of the HTML-entity regex `/&[a-z0-9#]+;/gi`. -/
def entChar (c : Char) : Bool :=
  ('a' ≤ c ∧ c ≤ 'z') ∨ ('A' ≤ c ∧ c ≤ 'Z') ∨ c.isDigit ∨ c = '#'

/-- The fixed entity table of `decodeHTMLEntities`. -/
def entityTable : List (String × String) :=
  [("&amp;", "&"), ("&lt;", "<"), ("&gt;", ">"), ("&quot;", "\""), ("&#39;", "'")]

/-- Scanner for `decodeHTMLEntities` (fuel-indexed; the fuel is the input
length, and every step consumes at least one character, so it never runs
out). -/
def decodeEntGo : Nat → List Char → List Char
  | 0, cs => cs
  | _ + 1, [] => []
  | fuel + 1, c :: rest =>
    if c = '&' then
      let run := rest.takeWhile entChar
      let after := rest.dropWhile entChar
      match after with
      | ';' :: tail =>
        if run = [] then c :: decodeEntGo fuel rest
        else
          let matched := "&" ++ String.mk run ++ ";"
          (match entityTable.lookup matched with
           | some repl => repl.data
           | none => matched.data) ++ decodeEntGo fuel tail
      | _ => c :: decodeEntGo fuel rest
    else c :: decodeEntGo fuel rest

/-- `decodeHTMLEntities`: decode the fixed table, pass anything else
through unchanged. -/
def decodeHTMLEntities (s : String) : String :=
  String.mk (decodeEntGo s.data.length s.data)

/-- `truncateFilename`: keep a tail of the name plus the extension, within
`maxLength` (default 20). -/
def truncateFilename (filename : String) (maxLength : Nat := 20) : String :=
  if filename.length ≤ maxLength then filename
  else
    let cs := filename.data
    let lastDot : Option Nat := (cs.reverse.indexOf? '.').map (fun i => cs.length - 1 - i)
    let ext := match lastDot with
      | some i => String.mk (cs.drop i)
      | none => ""
    let nameWithoutExt := match lastDot with
      | some i => String.mk (cs.take i)
      | none => filename
    if maxLength ≤ ext.length + 3 then "..." ++ ext
    else
      let availableLength := maxLength - ext.length - 3
      "..." ++ String.mk (nameWithoutExt.data.drop (nameWithoutExt.length - availableLength)) ++ ext

/-- Processing of one `STMTTRN` element (the body of the transaction loop
in `parseQFX`). -/
def qfxRowResult (idGen : IdGen) (accountId : Option String) (sourceFile : Option String)
    (r : StmtTrn) : Except ParseError Transaction :=
  let dtPosted := jsOrDefault r.dtPosted ""
  let trnAmt := jsOrDefault r.trnAmt ""
  let fitId := jsOrDefault r.fitId ""
  let name := jsOrDefault r.name "Unknown"
  let memo : Option String :=
    match r.memo with
    | some m => if m = "" then none else some m
    | none => none
  match parseOFXDate dtPosted with
  | none => .error ⟨none, some "DTPOSTED", "Invalid date format: " ++ dtPosted, .error⟩
  | some date =>
    match jsParseFloat trnAmt with
    | none => .error ⟨none, some "TRNAMT", "Invalid amount: " ++ trnAmt, .error⟩
    | some amount =>
      let description := decodeHTMLEntities name
      let normalizedType := if amount < 0 then TxnType.DEBIT else TxnType.CREDIT
      .ok
        { id := idGen date amount description accountId
          date := date
          description := description
          amount := amount
          type := normalizedType
          categoryId := none
          isExcluded := false
          source := "QFX"
          sourceFile := sourceFile
          accountId := accountId
          transactionId := some fitId
          memo := memo
          isManuallyCategorized := false }

/-- `filename ? truncateFilename(filename) : undefined`. -/
def qfxSourceFile : Option String → Option String
  | some f => if f = "" then none else some (truncateFilename f)
  | none => none

/-- `parseQFX` over the extracted `STMTTRN` elements (and the account id
extracted from `BANKACCTFROM`/`CCACCTFROM`): the per-transaction loop with
its empty-file warning and all-invalid error. -/
def parseQFX (idGen : IdGen) (accountId : Option String) (filename : Option String)
    (rows : List StmtTrn) : List Transaction × List ParseError :=
  let sourceFile : Option String := qfxSourceFile filename
  if rows = [] then
    ([], [⟨none, none, "No transactions found in QFX file", .warning⟩])
  else
    let step := collectRows (qfxRowResult idGen accountId sourceFile) rows
    if step.1 = [] then
      (step.1, step.2 ++ [⟨none, none, "No valid transactions found in QFX file", .error⟩])
    else step

/-! ## Merchant-name normalization (`normalizeMerchant` in the analytics
calculator; the same noise-stripping as `extractMerchantPattern`)

The three `replace` regexes are modelled by direct left-to-right scans with
the same semantics (global flag, greedy quantifiers); each scanner is
fuel-indexed by the input length, and consumes at least one character per
unit of fuel, so the fuel never runs out. -/

/-- Scanner for `.replace(/SQ \*/gi, '')`. -/
def remSQGo : Nat → List Char → List Char
  | 0, cs => cs
  | _ + 1, [] => []
  | fuel + 1, c :: cs =>
    if c = 'S' ∨ c = 's' then
      match cs with
      | c2 :: c3 :: c4 :: rest =>
        if (c2 = 'Q' ∨ c2 = 'q') ∧ c3 = ' ' ∧ c4 = '*' then remSQGo fuel rest
        else c :: remSQGo fuel cs
      | _ => c :: remSQGo fuel cs
    else c :: remSQGo fuel cs

/-- Scanner for `.replace(/\d{10,}/g, '')`: drop every maximal digit run of
length at least 10. -/
def remLongDigitsGo : Nat → List Char → List Char
  | 0, cs => cs
  | _ + 1, [] => []
  | fuel + 1, c :: cs =>
    if c.isDigit then
      let run := (c :: cs).takeWhile Char.isDigit
      let rest := (c :: cs).dropWhile Char.isDigit
      if 10 ≤ run.length then remLongDigitsGo fuel rest
      else run ++ remLongDigitsGo fuel rest
    else c :: remLongDigitsGo fuel cs

/-- ASCII upper-case letter. -/
def isUpperAZ (c : Char) : Bool := 'A' ≤ c ∧ c ≤ 'Z'

/-- Scanner for `.replace(/[A-Z]{2}\d{4,}/g, '')` (location codes). -/
def remLocGo : Nat → List Char → List Char
  | 0, cs => cs
  | _ + 1, [] => []
  | fuel + 1, c :: cs =>
    match cs with
    | c2 :: rest =>
      if isUpperAZ c ∧ isUpperAZ c2 then
        let run := rest.takeWhile Char.isDigit
        if 4 ≤ run.length then remLocGo fuel (rest.dropWhile Char.isDigit)
        else c :: remLocGo fuel cs
      else c :: remLocGo fuel cs
    | [] => [c]

/-- `normalizeMerchant`: strip the Square prefix, long digit runs and
location codes, trim, and keep the first 30 characters. -/
def normalizeMerchant (description : String) : String :=
  let cs := description.data
  let cs := remSQGo cs.length cs
  let cs := remLongDigitsGo cs.length cs
  let cs := remLocGo cs.length cs
  String.mk ((jsTrimList cs).take 30)

/-! ## Analytics: repeated-expense detection and overall stats -/

structure RepeatedExpense where
  merchantPattern : String
  occurrences : Nat
  averageAmount : ℚ
  totalAmount : ℚ
  transactionIds : List String
  isLikelySubscription : Bool
  estimatedMonthly : Option ℚ
deriving DecidableEq

/-- Append `t` to the group keyed `k`, preserving first-seen key order
(model of the JS `Map` grouping). -/
def insertGrp (k : String) (t : Transaction) :
    List (String × List Transaction) → List (String × List Transaction)
  | [] => [(k, [t])]
  | (k1, g) :: rest =>
    if k1 = k then (k1, g ++ [t]) :: rest else (k1, g) :: insertGrp k t rest

/-- `groupByMerchant`: group the debit, non-excluded transactions by their
normalized merchant key. -/
def groupByMerchant (txns : List Transaction) : List (String × List Transaction) :=
  (txns.filter (fun t => t.type = TxnType.DEBIT ∧ t.isExcluded = false)).foldl
    (fun acc t => insertGrp (normalizeMerchant t.description) t acc) []

/-- JS `Math.abs(num) / den <= 0.1` for a non-negative numerator: division
by zero yields `Infinity` (or `NaN` for `0/0`), and both compare `false`. -/
def jsDivLeTenth (num den : ℚ) : Bool :=
  if den = 0 then false else num / den ≤ 1 / 10

/-- The amount-similarity test: every member within 10% of the mean. -/
def isSimilarGroup (amounts : List ℚ) (avgAmount : ℚ) : Bool :=
  amounts.all (fun amt => jsDivLeTenth |amt - avgAmount| avgAmount)

/-- Sorted-date consecutive gaps of a group, in (fractional) days. -/
def dayIntervals (txns : List Transaction) : List ℚ :=
  let dates := List.insertionSort (fun a b => a ≤ b) (txns.map (fun t => t.date))
  (dates.zip dates.tail).map (fun p => ((p.2 - p.1 : Int) : ℚ) / 86400000)

/-- The average of the consecutive day gaps of the date-sorted group: the
quantity whose position in [25, 35] classifies a subscription. -/
def avgGapDays (txns : List Transaction) : ℚ :=
  (dayIntervals txns).sum / ((dayIntervals txns).length : ℚ)

/-- `isLikelySubscription`: the average inter-transaction interval
(consecutive gaps of the date-sorted group, in days) lies in [25, 35]. -/
def isLikelySubscriptionGrp (txns : List Transaction) : Bool :=
  if txns.length < 2 then false
  else
    let intervals := dayIntervals txns
    if intervals = [] then false
    else
      let avgInterval := intervals.sum / intervals.length
      25 ≤ avgInterval ∧ avgInterval ≤ 35

/-- The `RepeatedExpense` record pushed for a qualifying group. -/
def mkRepeated (merchant : String) (txns : List Transaction) : RepeatedExpense :=
  let amounts := txns.map (fun t => |t.amount|)
  let avgAmount := amounts.sum / (amounts.length : ℚ)
  let sub := isLikelySubscriptionGrp txns
  { merchantPattern := merchant
    occurrences := txns.length
    averageAmount := avgAmount
    totalAmount := amounts.sum
    transactionIds := txns.map (fun t => t.id)
    isLikelySubscription := sub
    estimatedMonthly := if sub then some avgAmount else none }

/-- Per-group body of `detectRepeatedExpenses`: `none` when the group is
skipped (fewer than 2 members, or amounts not similar). -/
def processGroup (kg : String × List Transaction) : Option RepeatedExpense :=
  if kg.2.length < 2 then none
  else
    let amounts := kg.2.map (fun t => |t.amount|)
    let avgAmount := amounts.sum / (amounts.length : ℚ)
    if isSimilarGroup amounts avgAmount then some (mkRepeated kg.1 kg.2) else none

/-- `detectRepeatedExpenses`: qualifying groups, sorted by total amount
descending (JS `sort` is stable; modelled by a stable insertion sort). -/
def detectRepeatedExpenses (txns : List Transaction) : List RepeatedExpense :=
  List.insertionSort (fun a b => b.totalAmount ≤ a.totalAmount)
    ((groupByMerchant txns).filterMap processGroup)

structure OverallStats where
  totalDebits : ℚ
  totalCredits : ℚ
  net : ℚ
  transactionCount : Nat
  dateRange : Option (Int × Int)
  monthCount : Nat
  averageMonthlyExpenses : ℚ
deriving DecidableEq

/-- `computeOverallStats`; `monthKey` models `format(date, 'yyyy-MM')` from
`date-fns` (an external collaborator). -/
def computeOverallStats (monthKey : Int → String) (txns : List Transaction) : OverallStats :=
  let nonExcluded := txns.filter (fun t => t.isExcluded = false)
  let expenses := nonExcluded.filter (fun t => t.type = TxnType.DEBIT)
  let totalDebits : ℚ := |(expenses.map (fun t => t.amount)).sum|
  let dateRange : Option (Int × Int) :=
    match nonExcluded.map (fun t => t.date) with
    | [] => none
    | d :: ds => some (ds.foldl min d, ds.foldl max d)
  let monthCount := ((nonExcluded.map (fun t => monthKey t.date)).dedup).length
  { totalDebits := totalDebits
    totalCredits := 0
    net := 0
    transactionCount := nonExcluded.length
    dateRange := dateRange
    monthCount := monthCount
    averageMonthlyExpenses := if 0 < monthCount then totalDebits / (monthCount : ℚ) else 0 }

/-! ## Categorization engine -/

structure CategoryPattern where
  id : String
  pattern : String
  priority : Int
  enabled : Bool
  isDefault : Bool
  description : Option String
deriving DecidableEq

structure Category where
  id : String
  name : String
  color : String
  patterns : List CategoryPattern
  isCustom : Bool
  isDefault : Bool
deriving DecidableEq

structure CategorizationRule where
  id : String
  categoryId : String
  pattern : String
  priority : Int
  enabled : Bool
deriving DecidableEq

/-- The flattened `PatternMatch` items of `categorize`. -/
structure PatternMatchItem where
  categoryId : String
  priority : Int
  pattern : String
deriving DecidableEq

/-- A regex-test oracle: `test pattern text` models
`new RegExp(pattern, 'i').test(text)`.  The platform regex engine is an
external collaborator; concrete instantiations below use plain
case-insensitive containment (the regex semantics of a literal pattern). -/
abbrev RegexTest := String → String → Bool

/-- ASCII lower-casing (for the concrete case-insensitive matcher). -/
def asciiLower (c : Char) : Char :=
  if 'A' ≤ c ∧ c ≤ 'Z' then Char.ofNat (c.toNat + 32) else c

/-- `pat` starts `cs`. -/
def leadsWith : List Char → List Char → Bool
  | [], _ => true
  | _ :: _, [] => false
  | p :: ps, c :: cs => p = c ∧ leadsWith ps cs

/-- `pat` occurs as a contiguous run somewhere in `cs`. -/
def occursIn (pat : List Char) : List Char → Bool
  | [] => leadsWith pat []
  | c :: cs => leadsWith pat (c :: cs) ∨ occursIn pat cs

/-- `pat` occurs (case-insensitively) as a contiguous substring of `text`:
the behaviour of `new RegExp(pat, 'i').test(text)` for a pattern without
regex metacharacters. -/
def icontains (pat text : String) : Bool :=
  occursIn (pat.data.map asciiLower) (text.data.map asciiLower)

/-- The enabled category patterns, flattened (declaration order). -/
def allCategoryPatterns (categories : List Category) : List PatternMatchItem :=
  (categories.map (fun cat =>
    (cat.patterns.filter (fun p => p.enabled)).map
      (fun p => PatternMatchItem.mk cat.id p.priority p.pattern))).flatten

/-- The enabled legacy rules as match items (declaration order; the source
collects these but, unlike the category patterns, never sorts them). -/
def legacyMatchItems (rules : List CategorizationRule) : List PatternMatchItem :=
  (rules.filter (fun r => r.enabled)).map
    (fun r => PatternMatchItem.mk r.categoryId r.priority r.pattern)

/-- `CategorizationEngine.categorize`: description-mapping lookup first,
then the priority-sorted enabled category patterns, then the legacy rules
in declaration order. -/
def categorize (test : RegexTest) (categories : List Category)
    (rules : List CategorizationRule) (descriptionMappings : List (String × String))
    (txn : Transaction) : Option String :=
  let mapped : Option String :=
    match descriptionMappings.lookup txn.description with
    | some c => if c = "" then none else some c
    | none => none
  match mapped with
  | some c => some c
  | none =>
    let sorted := List.insertionSort (fun a b => a.priority ≤ b.priority)
      (allCategoryPatterns categories)
    match sorted.find? (fun item => test item.pattern txn.description) with
    | some item => some item.categoryId
    | none =>
      match (legacyMatchItems rules).find? (fun item => test item.pattern txn.description) with
      | some item => some item.categoryId
      | none => none

/-- `CategorizationEngine.batchCategorize` mutates the transaction objects
of the input array in place; the model returns the post-state of that
array. -/
def batchCategorize (test : RegexTest) (categories : List Category)
    (rules : List CategorizationRule) (descriptionMappings : List (String × String))
    (txns : List Transaction) : List Transaction :=
  txns.map (fun txn =>
    if txn.isManuallyCategorized = false ∧ jsTruthy txn.categoryId = false then
      { txn with categoryId := categorize test categories rules descriptionMappings txn }
    else txn)

/-- The legacy fallback as the spec describes it (for comparison with the
code): the enabled legacy rules re-sorted by ascending priority with
declaration order breaking ties, first match wins.  This definition follows
the spec wording, not the source. -/
def specLegacyFallback (test : RegexTest) (rules : List CategorizationRule)
    (description : String) : Option String :=
  let sortedLegacy := List.insertionSort (fun a b => a.priority ≤ b.priority)
    (legacyMatchItems rules)
  (sortedLegacy.find? (fun item => test item.pattern description)).map
    (fun item => item.categoryId)

/-- A transaction with its `categoryId` blanked: the frame of every field
`batchCategorize` does not write. -/
def eraseCategoryId (t : Transaction) : Transaction := { t with categoryId := none }

/-! ## Identity utilities (`generateId`, `generateTransactionId`) -/

/-- The mutable environment a JS invocation runs in: the values
`Date.now()` and `Math.random()...` would deliver at that moment. -/
structure JSEnv where
  now : Nat
  randSuffix : String
deriving DecidableEq

/-- `generateId`: built from the current time and a random suffix — it
reads the nondeterministic environment. -/
def generateId (env : JSEnv) : String :=
  toString env.now ++ "-" ++ env.randSuffix

/-- ToInt32 (two's-complement wrap), as applied by JS bitwise operators. -/
def toInt32 (x : Int) : Int := Int.emod (x + 2147483648) 4294967296 - 2147483648

/-- One step of the fallback hash: `hash = ((hash << 5) - hash) + char;
hash = hash & hash` on 32-bit-wrapped values. -/
def hashStep (h : Int) (c : Nat) : Int := toInt32 (toInt32 (h * 32) - h + c)

/-- The fallback hash value over a key string. -/
def simpleHashVal (s : String) : Int := s.data.foldl (fun h c => hashStep h c.toNat) 0

/-- Digit character of base-36 output (`0`–`9`, `a`–`z`). -/
def base36digit (n : Nat) : Char :=
  if n < 10 then Char.ofNat (48 + n) else Char.ofNat (87 + n)

/-- Base-36 digits of `n` (fuel-indexed; `n + 1` units always suffice). -/
def natToBase36Go : Nat → Nat → List Char
  | 0, _ => []
  | fuel + 1, n => if n < 36 then [base36digit n] else natToBase36Go fuel (n / 36) ++ [base36digit (n % 36)]

/-- `Math.abs(hash).toString(36)`. -/
def natToBase36 (n : Nat) : String := String.mk (natToBase36Go (n + 1) n)

/-- The fallback branch of `generateTransactionId`. -/
def simpleHash36 (s : String) : String := natToBase36 (simpleHashVal s).natAbs

/-- The canonical fingerprint key
`date.toISOString() + '_' + amount + '_' + description + '_' + (accountId or '')`;
`dateISO` and `numToString` model the platform's `Date.prototype.toISOString`
and number-to-string conversions. -/
def txnIdKey (dateISO : Int → String) (numToString : ℚ → String) (date : Int) (amount : ℚ)
    (description : String) (accountId : Option String) : String :=
  dateISO date ++ "_" ++ numToString amount ++ "_" ++ description ++ "_" ++ accountId.getD ""

/-- `generateTransactionId`: a digest of the canonical key — SHA-256 hex
(`sha256hex`, a fixed platform function) when `crypto.subtle` is available,
else the fallback hash.  It takes the invocation environment `env` as an
argument only to express that, unlike `generateId`, it never reads it. -/
def generateTransactionId (sha256hex : String → String) (dateISO : Int → String)
    (numToString : ℚ → String) (cryptoAvailable : Bool) (env : JSEnv) (date : Int) (amount : ℚ)
    (description : String) (accountId : Option String) : String :=
  let key := txnIdKey dateISO numToString date amount description accountId
  if cryptoAvailable then sha256hex key else simpleHash36 key

/-- The `ADD_TRANSACTIONS` reducer's dedup-by-id: incoming transactions
whose id already exists are dropped. -/
def addTransactionsDedup (existing incoming : List Transaction) : List Transaction :=
  existing ++ incoming.filter (fun t => !((existing.map (fun e => e.id)).contains t.id))

/-! ## SGML-to-XML tag-soup repair (`convertOFXToXML`)

The character-by-character scan with its open-tag stack, translated to a
recursion over the character list.  Tag names on the stack are kept as
character lists. -/

/-- The fixed set of container tag names that are never auto-closed. -/
def containerTags : List String :=
  ["OFX", "SIGNONMSGSRSV1", "SONRS", "STATUS", "FI",
   "BANKMSGSRSV1", "STMTTRNRS", "STMTRS", "BANKACCTFROM", "BANKTRANLIST",
   "STMTTRN", "LEDGERBAL", "AVAILBAL",
   "CREDITCARDMSGSRSV1", "CCSTMTTRNRS", "CCSTMTRS", "CCACCTFROM"]

/-- Membership of a scanned tag name in the container set. -/
def isContainer (nm : List Char) : Bool := containerTags.contains (String.mk nm)

/-- `<nm>`. -/
def openTagC (nm : List Char) : List Char := '<' :: nm ++ ['>']

/-- `</nm>`. -/
def closeTagC (nm : List Char) : List Char := '<' :: '/' :: nm ++ ['>']

/-- `sgml.indexOf('>', i)`: split the input at the first `>`, returning the
characters before it and the rest after it (`none` when there is no `>`,
upon which the scan loop breaks). -/
def splitAtGt : List Char → Option (List Char × List Char)
  | [] => none
  | c :: cs =>
    if c = '>' then some ([], cs)
    else
      match splitAtGt cs with
      | none => none
      | some (tag, rest) => some (c :: tag, rest)

/-- On an opening tag: if the top of the stack is a leaf (non-container)
tag, synthesize its closing tag and pop it. -/
def flushLeaf : List (List Char) → List Char × List (List Char)
  | [] => ([], [])
  | top :: rest => if isContainer top then ([], top :: rest) else (closeTagC top, rest)

/-- On an explicit closing tag `</nm>`: pop open tags, emitting closing
tags for the non-container ones, until `nm` itself is found and closed. -/
def closeUntil (nm : List Char) : List (List Char) → List Char × List (List Char)
  | [] => ([], [])
  | top :: rest =>
    let emit := if isContainer top then [] else closeTagC top
    if top = nm then (emit ++ closeTagC nm, rest)
    else
      let r := closeUntil nm rest
      (emit ++ r.1, r.2)

/-- At end of input: close every remaining open tag. -/
def closeAllTags : List (List Char) → List Char
  | [] => []
  | top :: rest => closeTagC top ++ closeAllTags rest

/-- Length strictly decreases across `splitAtGt`. -/
theorem splitAtGt_length {cs tag rest : List Char}
    (h : splitAtGt cs = some (tag, rest)) : rest.length < cs.length := by
  induction cs generalizing tag rest with
  | nil => simp [splitAtGt] at h
  | cons c cs ih =>
    by_cases hc : c = '>'
    · simp only [splitAtGt, hc, if_true, Option.some.injEq, Prod.mk.injEq] at h
      obtain ⟨-, h2⟩ := h
      subst h2
      simp
    · simp only [splitAtGt, hc, if_false] at h
      cases hsplit : splitAtGt cs with
      | none => rw [hsplit] at h; simp at h
      | some tr =>
        rw [hsplit] at h
        cases tr with
        | mk t r =>
          have hlen := ih hsplit
          simp only [Option.some.injEq, Prod.mk.injEq] at h
          obtain ⟨-, h2⟩ := h
          subst h2
          simp only [List.length_cons]
          omega

/-- The scan loop of `convertOFXToXML`. -/
def convertGo : List Char → List (List Char) → List Char
  | [], stack => closeAllTags stack
  | c :: cs, stack =>
    if c = '<' then
      match h : splitAtGt cs with
      | none => closeAllTags stack
      | some (tagContent, rest) =>
        match tagContent with
        | '/' :: nm =>
          let r := closeUntil nm stack
          r.1 ++ convertGo rest r.2
        | _ =>
          let r := flushLeaf stack
          r.1 ++ openTagC tagContent ++ convertGo rest (tagContent :: r.2)
    else c :: convertGo cs stack
termination_by cs _ => cs.length
decreasing_by
  · exact Nat.lt_succ_of_lt (splitAtGt_length h)
  · exact Nat.lt_succ_of_lt (splitAtGt_length h)
  · exact Nat.lt_succ_self _

/-- `convertOFXToXML`. -/
def convertOFXToXML (sgml : String) : String := String.mk (convertGo sgml.data [])

/-! A simple well-formedness checker for the repaired markup: every tag
token `</nm>` must close the innermost open `<nm>`, and no tag may be left
open at the end. -/

/-- The checker's scan loop. -/
def xmlWFGo : List Char → List (List Char) → Bool
  | [], stack => stack = []
  | c :: cs, stack =>
    if c = '<' then
      match h : splitAtGt cs with
      | none => false
      | some (tagContent, rest) =>
        match tagContent with
        | '/' :: nm =>
          match stack with
          | top :: st => top = nm ∧ xmlWFGo rest st
          | [] => false
        | _ => xmlWFGo rest (tagContent :: stack)
    else xmlWFGo cs stack
termination_by cs _ => cs.length
decreasing_by
  · exact Nat.lt_succ_of_lt (splitAtGt_length h)
  · exact Nat.lt_succ_of_lt (splitAtGt_length h)
  · exact Nat.lt_succ_self _

/-- A string of markup is well-formed when the scan ends with an empty
stack. -/
def xmlWellFormed (s : String) : Bool := xmlWFGo s.data []

/-- Drop everything up to and including the first occurrence of `pat`. -/
def afterFirst (pat : List Char) : List Char → Option (List Char)
  | [] => none
  | c :: cs => if leadsWith pat (c :: cs) then some ((c :: cs).drop pat.length) else afterFirst pat cs

/-- Take characters until the first occurrence of `pat`. -/
def upToFirst (pat : List Char) : List Char → List Char
  | [] => []
  | c :: cs => if leadsWith pat (c :: cs) then [] else c :: upToFirst pat cs

/-- Field extraction on repaired markup, as the QFX parser performs it per
tag name: the text between the first `<tag>` and the following `</tag>`. -/
def extractTagText (tag : String) (s : String) : Option String :=
  (afterFirst (openTagC tag.data) s.data).map (fun suffix =>
    String.mk (upToFirst (closeTagC tag.data) suffix))

/-! A datatype of hand-built OFX fragments: a forest of leaf tags (no
closing tag in tag-soup form) and container tags (fully closed), with its
tag-soup and fully-closed renderings. -/

inductive OFXForest where
  | nil : OFXForest
  | leaf (name value : String) (rest : OFXForest) : OFXForest
  | node (name : String) (children : OFXForest) (rest : OFXForest) : OFXForest

/-- Tag-soup rendering: leaf tags have no closing tag. -/
def soupF : OFXForest → List Char
  | .nil => []
  | .leaf n v rest => openTagC n.data ++ v.data ++ soupF rest
  | .node n c rest => openTagC n.data ++ soupF c ++ closeTagC n.data ++ soupF rest

/-- Fully-closed (well-formed) rendering of the same fragment. -/
def closedF : OFXForest → List Char
  | .nil => []
  | .leaf n v rest => openTagC n.data ++ v.data ++ closeTagC n.data ++ closedF rest
  | .node n c rest => openTagC n.data ++ closedF c ++ closeTagC n.data ++ closedF rest

/-- A usable tag name: non-empty, no angle brackets, and not starting with
`/`. -/
def goodName (n : String) : Bool :=
  n ≠ "" ∧ n.data.head? ≠ some '/' ∧ ('>' ∈ n.data) = false ∧ ('<' ∈ n.data) = false

/-- Well-formed hand-built fragments: leaf names are non-container tags,
container names are container tags, and leaf values contain no `<`. -/
def wfForest : OFXForest → Bool
  | .nil => true
  | .leaf n v rest =>
    goodName n ∧ isContainer n.data = false ∧ ('<' ∈ v.data) = false ∧ wfForest rest
  | .node n c rest => goodName n ∧ isContainer n.data = true ∧ wfForest c ∧ wfForest rest

/-- A pending-leaf stack top: empty, or a single open leaf tag. -/
def pendOK : List (List Char) → Bool
  | [] => true
  | [l] => isContainer l = false
  | _ :: _ :: _ => false

/-! ## Concrete inputs used by witnesses and counterexamples -/

/-- A hand-built tag-soup fragment: a container holding a container of
three consecutive leaf tags (each leaf immediately followed by a sibling
leaf with no closer). -/
def wFragment : OFXForest :=
  .node "OFX"
    (.node "STMTTRN"
      (.leaf "TRNTYPE" "DEBIT"
        (.leaf "TRNAMT" "-4.50"
          (.leaf "NAME" "COFFEE SHOP" .nil)))
      .nil)
    .nil

/-- A 9.49 debit on day 0 (subscription-group witness). -/
def wNfx1 : Transaction :=
  ⟨"n1", 0, "NETFLIX.COM", -(949/100), TxnType.DEBIT, none, false, "CSV",
    none, none, none, none, false⟩

/-- A 9.49 debit 30 days later. -/
def wNfx2 : Transaction :=
  ⟨"n2", 2592000000, "NETFLIX.COM", -(949/100), TxnType.DEBIT, none, false, "CSV",
    none, none, none, none, false⟩

/-- A 9.50 debit 60 days after the first. -/
def wNfx3 : Transaction :=
  ⟨"n3", 5184000000, "NETFLIX.COM", -(950/100), TxnType.DEBIT, none, false, "CSV",
    none, none, none, none, false⟩

/-- A 100.00 debit (tolerance example). -/
def wGymA : Transaction :=
  ⟨"ga", 0, "GYM MEMBERSHIP", -100, TxnType.DEBIT, none, false, "CSV",
    none, none, none, none, false⟩

/-- A 115.00 debit ten days later, same merchant. -/
def wGymB : Transaction :=
  ⟨"gb", 864000000, "GYM MEMBERSHIP", -115, TxnType.DEBIT, none, false, "CSV",
    none, none, none, none, false⟩

/-- Debits of 100.00 / 109.99 / 91.00, same merchant (tolerance witness). -/
def wYogaA : Transaction :=
  ⟨"ya", 0, "YOGA STUDIO", -100, TxnType.DEBIT, none, false, "CSV",
    none, none, none, none, false⟩

/-- Second 109.99 debit of the tolerance-witness group. -/
def wYogaB : Transaction :=
  ⟨"yb", 864000000, "YOGA STUDIO", -(10999/100), TxnType.DEBIT, none, false, "CSV",
    none, none, none, none, false⟩

/-- Third 91.00 debit of the tolerance-witness group. -/
def wYogaC : Transaction :=
  ⟨"yc", 1728000000, "YOGA STUDIO", -91, TxnType.DEBIT, none, false, "CSV",
    none, none, none, none, false⟩

/-- Two enabled legacy rules matching the same text, declared with the
higher priority number first. -/
def wLegacyRules : List CategorizationRule :=
  [⟨"r1", "catA", "LEGACY TEST", 20, true⟩,
   ⟨"r2", "catB", "LEGACY TEST", 10, true⟩]

/-- An uncategorized, not-manually-categorized transaction whose
description both legacy rules match. -/
def wUncatTxn : Transaction :=
  ⟨"t1", 0, "LEGACY TEST PAYMENT", -5, TxnType.DEBIT, none, false, "CSV",
    none, none, none, none, false⟩

/-! ## Theorems -/

/-! ### Row-collection lemmas shared by the parser claims -/

theorem collectRows_go {α : Type} (f : α → Except ParseError Transaction) (rows : List α)
    (acc : List Transaction × List ParseError) :
    (rows.foldl
      (fun (acc : List Transaction × List ParseError) r =>
        match f r with
        | .ok t => (acc.1 ++ [t], acc.2)
        | .error e => (acc.1, acc.2 ++ [e]))
      acc).1
      = acc.1 ++ rows.filterMap (fun r => (f r).toOption) := by
  induction rows generalizing acc with
  | nil => simp
  | cons r rows ih =>
    cases hf : f r with
    | ok t => simp [List.foldl_cons, hf, ih, Except.toOption]
    | error e => simp [List.foldl_cons, hf, ih, Except.toOption]

theorem collectRows_fst {α : Type} (f : α → Except ParseError Transaction) (rows : List α) :
    (collectRows f rows).1 = rows.filterMap (fun r => (f r).toOption) := by
  simpa using collectRows_go f rows ([], [])

theorem toOption_eq_some {ε α : Type} {e : Except ε α} {a : α}
    (h : e.toOption = some a) : e = .ok a := by
  cases e with
  | ok b => simpa [Except.toOption] using h
  | error err => simp [Except.toOption] at h

/-- Membership in the transactions produced by `parseCSV` comes from a row
whose processing succeeded. -/
theorem parseCSV_mem {idGen : IdGen} {rows : List CSVRecord} {t : Transaction}
    (ht : t ∈ (parseCSV idGen rows).1) :
    ∃ ir ∈ rows.enum, csvRowResult idGen ir.1 ir.2 = .ok t := by
  have hmem : t ∈ (collectRows (fun ir => csvRowResult idGen ir.1 ir.2) rows.enum).1 := by
    simp only [parseCSV] at ht
    split at ht <;> simpa using ht
  rw [collectRows_fst] at hmem
  obtain ⟨ir, hir, hok⟩ := List.mem_filterMap.mp hmem
  exact ⟨ir, hir, toOption_eq_some hok⟩

/-- Membership in the transactions produced by `parseQFX` comes from an
element whose processing succeeded. -/
theorem parseQFX_mem {idGen : IdGen} {accountId filename : Option String}
    {rows : List StmtTrn} {t : Transaction}
    (ht : t ∈ (parseQFX idGen accountId filename rows).1) :
    ∃ sourceFile r, r ∈ rows ∧ qfxRowResult idGen accountId sourceFile r = .ok t := by
  simp only [parseQFX] at ht
  split at ht
  · simp at ht
  · have hmem : t ∈ (collectRows (qfxRowResult idGen accountId (qfxSourceFile filename)) rows).1 := by
      split at ht <;> simpa using ht
    rw [collectRows_fst] at hmem
    obtain ⟨r, hr, hok⟩ := List.mem_filterMap.mp hmem
    exact ⟨qfxSourceFile filename, r, hr, toOption_eq_some hok⟩

/-- Every transaction `csvRowResult` emits carries the
debit-iff-negative type. -/
theorem csvRowResult_type {idGen : IdGen} {i : Nat} {r : CSVRecord} {t : Transaction}
    (h : csvRowResult idGen i r = .ok t) :
    t.type = if t.amount < 0 then TxnType.DEBIT else TxnType.CREDIT := by
  simp only [csvRowResult] at h
  split at h
  · exact Except.noConfusion h
  · cases hdate : parseCSVDate (r.transDate.getD "") with
    | none =>
      simp only [hdate] at h
      exact Except.noConfusion h
    | some date =>
      simp only [hdate] at h
      cases hamt : jsParseFloat (stripCommas (r.amount.getD "")) with
      | none =>
        simp only [hamt] at h
        exact Except.noConfusion h
      | some amount =>
        simp only [hamt, Except.ok.injEq] at h
        subst h
        simp [neg_lt_zero]

/-- Every transaction `qfxRowResult` emits carries the
debit-iff-negative type. -/
theorem qfxRowResult_type {idGen : IdGen} {accountId sourceFile : Option String}
    {r : StmtTrn} {t : Transaction}
    (h : qfxRowResult idGen accountId sourceFile r = .ok t) :
    t.type = if t.amount < 0 then TxnType.DEBIT else TxnType.CREDIT := by
  simp only [qfxRowResult] at h
  cases hdate : parseOFXDate (jsOrDefault r.dtPosted "") with
  | none =>
    simp only [hdate] at h
    exact Except.noConfusion h
  | some date =>
    simp only [hdate] at h
    cases hamt : jsParseFloat (jsOrDefault r.trnAmt "") with
    | none =>
      simp only [hamt] at h
      exact Except.noConfusion h
    | some amount =>
      simp only [hamt, Except.ok.injEq] at h
      subst h
      simp [neg_lt_zero]

/-- The sign convention, as a biconditional, from the `if` shape of the
type field. -/
theorem type_ite_iff {t : Transaction}
    (h : t.type = if t.amount < 0 then TxnType.DEBIT else TxnType.CREDIT) :
    (t.amount < 0 ↔ t.type = TxnType.DEBIT) ∧ (t.amount = 0 → t.type = TxnType.CREDIT) := by
  refine ⟨⟨fun hlt => by rw [h, if_pos hlt], fun hd => ?_⟩, fun h0 => ?_⟩
  · by_contra hlt
    rw [h, if_neg hlt] at hd
    exact TxnType.noConfusion hd
  · rw [h, if_neg (by rw [h0]; exact lt_irrefl 0)]

/-- C1: for every transaction produced by either parser (QFX or CSV),
`amount < 0` holds if and only if the transaction's type is `DEBIT`; in
particular a transaction of amount `0` has type `CREDIT`. -/
theorem sign_convention_invariant
    (idGenQ idGenC : IdGen) (accountId filename : Option String)
    (qfxRows : List StmtTrn) (csvRows : List CSVRecord) :
    (∀ t ∈ (parseQFX idGenQ accountId filename qfxRows).1,
      (t.amount < 0 ↔ t.type = TxnType.DEBIT) ∧ (t.amount = 0 → t.type = TxnType.CREDIT)) ∧
    (∀ t ∈ (parseCSV idGenC csvRows).1,
      (t.amount < 0 ↔ t.type = TxnType.DEBIT) ∧ (t.amount = 0 → t.type = TxnType.CREDIT)) := by
  constructor
  · intro t ht
    obtain ⟨sf, r, -, hok⟩ := parseQFX_mem ht
    exact type_ite_iff (qfxRowResult_type hok)
  · intro t ht
    obtain ⟨ir, -, hok⟩ := parseCSV_mem ht
    exact type_ite_iff (csvRowResult_type hok)

/-- Witness for C1: a concrete QFX element and CSV row, run through the
parsers, satisfy the sign-convention biconditional. -/
theorem sign_convention_invariant_witness :
    (⟨"id", 1431561600000, "COFFEE SHOP", -(45/10 : ℚ), TxnType.DEBIT, none, false, "QFX",
        none, some "1234", some "FIT1", none, false⟩ : Transaction)
      ∈ (parseQFX (fun _ _ _ _ => "id") (some "1234") none
          [⟨some "DEBIT", some "20150514120000[0:GMT]", some "-4.5", some "FIT1",
            some "COFFEE SHOP", none⟩]).1 ∧
    ((-(45/10 : ℚ) < 0 ↔ TxnType.DEBIT = TxnType.DEBIT) ∧
      (-(45/10 : ℚ) = 0 → TxnType.DEBIT = TxnType.CREDIT)) := by
  have hlist : (parseQFX (fun _ _ _ _ => "id") (some "1234") none
      [⟨some "DEBIT", some "20150514120000[0:GMT]", some "-4.5", some "FIT1",
        some "COFFEE SHOP", none⟩]).1
      = [⟨"id", 1431561600000, "COFFEE SHOP", -(45/10 : ℚ), TxnType.DEBIT, none, false, "QFX",
        none, some "1234", some "FIT1", none, false⟩] := by
    with_unfolding_all rfl
  have hmem : (⟨"id", 1431561600000, "COFFEE SHOP", -(45/10 : ℚ), TxnType.DEBIT, none, false,
      "QFX", none, some "1234", some "FIT1", none, false⟩ : Transaction)
      ∈ (parseQFX (fun _ _ _ _ => "id") (some "1234") none
        [⟨some "DEBIT", some "20150514120000[0:GMT]", some "-4.5", some "FIT1",
          some "COFFEE SHOP", none⟩]).1 := by
    rw [hlist]
    exact List.mem_singleton.mpr rfl
  refine ⟨hmem, ?_⟩
  have h := (sign_convention_invariant (fun _ _ _ _ => "id") (fun _ _ _ _ => "id")
      (some "1234") none
      [⟨some "DEBIT", some "20150514120000[0:GMT]", some "-4.5", some "FIT1",
        some "COFFEE SHOP", none⟩] []).1
      (⟨"id", 1431561600000, "COFFEE SHOP", -(45/10 : ℚ), TxnType.DEBIT, none, false, "QFX",
        none, some "1234", some "FIT1", none, false⟩ : Transaction)
      hmem
  simpa using h

/-- The transactions component of `parseCSV` is the row-loop's first
component (the trailing no-valid-transactions error only touches the error
list). -/
theorem parseCSV_fst (idGen : IdGen) (rows : List CSVRecord) :
    (parseCSV idGen rows).1
      = (collectRows (fun ir => csvRowResult idGen ir.1 ir.2) rows.enum).1 := by
  simp only [parseCSV]
  split <;> rfl

/-- C2: a CSV row whose amount field parses as `a` (after stripping
thousands-separator commas) yields a transaction with amount `-a`, type
derived from the sign of `-a`, and the trimmed description. -/
theorem csv_sign_flip (idGen : IdGen) (rows : List CSVRecord) (i : Nat) (r : CSVRecord)
    (a : ℚ) (d : Int)
    (hrow : rows.get? i = some r)
    (h1 : jsTruthy r.transDate = true) (h2 : jsTruthy r.description = true)
    (h3 : jsTruthy r.amount = true)
    (hdate : parseCSVDate ((r.transDate).getD "") = some d)
    (hamt : jsParseFloat (stripCommas ((r.amount).getD "")) = some a) :
    ∃ t ∈ (parseCSV idGen rows).1, t.amount = -a ∧
      t.type = (if -a < 0 then TxnType.DEBIT else TxnType.CREDIT) ∧
      t.description = jsTrim ((r.description).getD "") := by
  have hok : ∃ t, csvRowResult idGen i r = .ok t ∧ t.amount = -a ∧
      t.type = (if -a < 0 then TxnType.DEBIT else TxnType.CREDIT) ∧
      t.description = jsTrim ((r.description).getD "") := by
    unfold csvRowResult
    rw [if_neg (by simp [h1, h2, h3])]
    simp only [hdate, hamt]
    exact ⟨_, rfl, rfl, rfl, rfl⟩
  obtain ⟨t, hok, hamount, htype, hdesc⟩ := hok
  refine ⟨t, ?_, hamount, htype, hdesc⟩
  rw [parseCSV_fst, collectRows_fst]
  refine List.mem_filterMap.mpr ⟨(i, r), ?_, ?_⟩
  · exact List.mem_enum_iff_get?.mpr hrow
  · simp [hok, Except.toOption]

/-- Witness for C2: the spec's example row
`01/11/2025,01/11/2025,"MERCHANT X",19.01,"Restaurants"` yields
`amount = -19.01` and type `DEBIT`. -/
theorem csv_sign_flip_witness :
    parseCSVDate "01/11/2025" = some 1736553600000 ∧
    jsParseFloat (stripCommas "19.01") = some (1901/100 : ℚ) ∧
    (-(1901/100 : ℚ) < 0) ∧
    ∃ t ∈ (parseCSV (fun _ _ _ _ => "id")
        [⟨some "01/11/2025", some "01/11/2025", some "MERCHANT X", some "19.01",
          some "Restaurants"⟩]).1,
      t.amount = -(1901/100 : ℚ) ∧
      t.type = (if -(1901/100 : ℚ) < 0 then TxnType.DEBIT else TxnType.CREDIT) ∧
      t.description = jsTrim "MERCHANT X" := by
  refine ⟨by with_unfolding_all rfl, by with_unfolding_all rfl, by norm_num, ?_⟩
  exact csv_sign_flip (fun _ _ _ _ => "id")
    [⟨some "01/11/2025", some "01/11/2025", some "MERCHANT X", some "19.01",
      some "Restaurants"⟩] 0
    ⟨some "01/11/2025", some "01/11/2025", some "MERCHANT X", some "19.01", some "Restaurants"⟩
    (1901/100) 1736553600000 rfl (by decide) (by decide) (by decide)
    (by with_unfolding_all rfl) (by with_unfolding_all rfl)

/-- C9: on an empty transaction collection the overall stats report zero
counts and totals, no date range, and a guarded (zero) monthly average. -/
theorem overall_stats_empty (monthKey : Int → String) :
    computeOverallStats monthKey [] =
      { totalDebits := 0, totalCredits := 0, net := 0, transactionCount := 0,
        dateRange := none, monthCount := 0, averageMonthlyExpenses := 0 } := by
  simp [computeOverallStats]

/-! ### Analytics lemmas (repeated-expense detection) -/

theorem processGroup_some_of {key : String} {g : List Transaction}
    (hlen : 2 ≤ g.length)
    (hsim : isSimilarGroup (g.map fun t => |t.amount|)
      ((g.map fun t => |t.amount|).sum / ((g.map fun t => |t.amount|).length : ℚ)) = true) :
    processGroup (key, g) = some (mkRepeated key g) := by
  simp only [processGroup]
  rw [if_neg (Nat.not_lt.mpr hlen)]
  rw [if_pos hsim]

theorem processGroup_props {kg : String × List Transaction} {r : RepeatedExpense}
    (h : processGroup kg = some r) :
    r = mkRepeated kg.1 kg.2 ∧ 2 ≤ kg.2.length ∧
      isSimilarGroup (kg.2.map fun t => |t.amount|)
        ((kg.2.map fun t => |t.amount|).sum / ((kg.2.map fun t => |t.amount|).length : ℚ))
        = true := by
  simp only [processGroup] at h
  split at h
  · exact Option.noConfusion h
  · split at h
    · have h2 := Option.some_inj.mp h
      exact ⟨h2.symm, by omega, by assumption⟩
    · exact Option.noConfusion h

theorem detect_mem_iff {txns : List Transaction} {r : RepeatedExpense} :
    r ∈ detectRepeatedExpenses txns ↔
      r ∈ (groupByMerchant txns).filterMap processGroup := by
  unfold detectRepeatedExpenses
  exact (List.perm_insertionSort _ _).mem_iff

theorem mem_keys_insertGrp {k k1 : String} {t : Transaction}
    {l : List (String × List Transaction)} :
    k1 ∈ (insertGrp k t l).map Prod.fst ↔ (k1 ∈ l.map Prod.fst ∨ k1 = k) := by
  induction l with
  | nil => simp [insertGrp]
  | cons p rest ih =>
    obtain ⟨kp, gp⟩ := p
    by_cases hk : kp = k
    · subst hk
      simp [insertGrp]
      tauto
    · simp [insertGrp, hk, ih]
      tauto

theorem insertGrp_keys_nodup {k : String} {t : Transaction}
    {l : List (String × List Transaction)}
    (h : (l.map Prod.fst).Nodup) : ((insertGrp k t l).map Prod.fst).Nodup := by
  induction l with
  | nil => simp [insertGrp]
  | cons p rest ih =>
    obtain ⟨kp, gp⟩ := p
    simp only [List.map_cons, List.nodup_cons] at h
    by_cases hk : kp = k
    · subst hk
      simpa [insertGrp, List.nodup_cons] using h
    · simp only [insertGrp, if_neg hk, List.map_cons, List.nodup_cons]
      refine ⟨?_, ih h.2⟩
      rw [mem_keys_insertGrp]
      rintro (hmem | heq)
      · exact h.1 hmem
      · exact hk heq

theorem groupByMerchant_keys_nodup (txns : List Transaction) :
    ((groupByMerchant txns).map Prod.fst).Nodup := by
  unfold groupByMerchant
  generalize txns.filter _ = l
  suffices h : ∀ (acc : List (String × List Transaction)), (acc.map Prod.fst).Nodup →
      ((l.foldl (fun acc t => insertGrp (normalizeMerchant t.description) t acc) acc).map
        Prod.fst).Nodup by
    exact h [] (by simp)
  induction l with
  | nil => intro acc h; simpa using h
  | cons t rest ih =>
    intro acc h
    exact ih _ (insertGrp_keys_nodup h)

theorem assoc_eq_of_nodup_keys {l : List (String × List Transaction)}
    (h : (l.map Prod.fst).Nodup) {k : String} {g1 g2 : List Transaction}
    (h1 : (k, g1) ∈ l) (h2 : (k, g2) ∈ l) : g1 = g2 := by
  induction l with
  | nil => simp at h1
  | cons p rest ih =>
    obtain ⟨kp, gp⟩ := p
    simp only [List.map_cons, List.nodup_cons] at h
    rcases List.mem_cons.mp h1 with he1 | hm1 <;> rcases List.mem_cons.mp h2 with he2 | hm2
    · have h12 : ((k, g1) : String × List Transaction) = (k, g2) := he1.trans he2.symm
      injection h12 with hk hg
    · exfalso
      have hk : k = kp := by injection he1 with hk hg
      exact h.1 (hk ▸ List.mem_map.mpr ⟨(k, g2), hm2, rfl⟩)
    · exfalso
      have hk : k = kp := by injection he2 with hk hg
      exact h.1 (hk ▸ List.mem_map.mpr ⟨(k, g1), hm1, rfl⟩)
    · exact ih h.2 hm1 hm2

theorem dayIntervals_length (g : List Transaction) :
    (dayIntervals g).length = g.length - 1 := by
  unfold dayIntervals
  simp [List.length_zip, List.length_insertionSort]

theorem isLikelySubscription_iff {g : List Transaction} (hlen : 2 ≤ g.length) :
    isLikelySubscriptionGrp g = true ↔ (25 ≤ avgGapDays g ∧ avgGapDays g ≤ 35) := by
  unfold isLikelySubscriptionGrp
  rw [if_neg (by omega)]
  rw [if_neg (by
    intro hnil
    have := dayIntervals_length g
    rw [hnil] at this
    simp at this
    omega)]
  simp [avgGapDays]

/-- C4: a debit merchant group of two or more members that passes the
amount-similarity test is reported, is flagged a likely subscription
exactly when its average consecutive date gap lies in [25, 35] days, and
carries `estimatedMonthly` (the group's average absolute amount) exactly in
that case. -/
theorem subscription_classification (txns : List Transaction) (key : String)
    (g : List Transaction)
    (hmem : (key, g) ∈ groupByMerchant txns)
    (hlen : 2 ≤ g.length)
    (hsim : isSimilarGroup (g.map fun t => |t.amount|)
      ((g.map fun t => |t.amount|).sum / ((g.map fun t => |t.amount|).length : ℚ)) = true) :
    mkRepeated key g ∈ detectRepeatedExpenses txns ∧
    ((mkRepeated key g).isLikelySubscription = true ↔
      (25 ≤ avgGapDays g ∧ avgGapDays g ≤ 35)) ∧
    ((mkRepeated key g).estimatedMonthly =
      if 25 ≤ avgGapDays g ∧ avgGapDays g ≤ 35 then
        some ((g.map fun t => |t.amount|).sum / ((g.map fun t => |t.amount|).length : ℚ))
      else none) := by
  have hsub : (mkRepeated key g).isLikelySubscription = isLikelySubscriptionGrp g := rfl
  refine ⟨?_, ?_, ?_⟩
  · rw [detect_mem_iff]
    exact List.mem_filterMap.mpr ⟨(key, g), hmem, processGroup_some_of hlen hsim⟩
  · rw [hsub]
    exact isLikelySubscription_iff hlen
  · by_cases hp : 25 ≤ avgGapDays g ∧ avgGapDays g ≤ 35
    · rw [if_pos hp]
      have : isLikelySubscriptionGrp g = true := (isLikelySubscription_iff hlen).mpr hp
      simp [mkRepeated, this]
    · rw [if_neg hp]
      have : isLikelySubscriptionGrp g = false := by
        rw [← Bool.not_eq_true]
        exact fun hc => hp ((isLikelySubscription_iff hlen).mp hc)
      simp [mkRepeated, this]

/-- Witness for C4: three 9.49/9.49/9.50 debits 30 days apart collapse to
one merchant group, are reported, and are classified a likely subscription
with the average amount as `estimatedMonthly`. -/
theorem subscription_classification_witness :
    ((("NETFLIX.COM" : String),
        [wNfx1, wNfx2, wNfx3]) ∈ groupByMerchant [wNfx1, wNfx2, wNfx3]) ∧
    (mkRepeated "NETFLIX.COM" [wNfx1, wNfx2, wNfx3] ∈
        detectRepeatedExpenses [wNfx1, wNfx2, wNfx3] ∧
      ((mkRepeated "NETFLIX.COM" [wNfx1, wNfx2, wNfx3]).isLikelySubscription = true ↔
        (25 ≤ avgGapDays [wNfx1, wNfx2, wNfx3] ∧ avgGapDays [wNfx1, wNfx2, wNfx3] ≤ 35)) ∧
      ((mkRepeated "NETFLIX.COM" [wNfx1, wNfx2, wNfx3]).estimatedMonthly =
        if 25 ≤ avgGapDays [wNfx1, wNfx2, wNfx3] ∧ avgGapDays [wNfx1, wNfx2, wNfx3] ≤ 35 then
          some (([wNfx1, wNfx2, wNfx3].map fun t => |t.amount|).sum /
            ((([wNfx1, wNfx2, wNfx3].map fun t => |t.amount|)).length : ℚ))
        else none)) := by
  have hgrp : groupByMerchant [wNfx1, wNfx2, wNfx3]
      = [("NETFLIX.COM", [wNfx1, wNfx2, wNfx3])] := by
    with_unfolding_all rfl
  have hmem : (("NETFLIX.COM" : String), [wNfx1, wNfx2, wNfx3])
      ∈ groupByMerchant [wNfx1, wNfx2, wNfx3] := by
    rw [hgrp]
    exact List.mem_singleton.mpr rfl
  refine ⟨hmem, ?_⟩
  exact subscription_classification [wNfx1, wNfx2, wNfx3] "NETFLIX.COM"
    [wNfx1, wNfx2, wNfx3] hmem (by decide) (by with_unfolding_all rfl)

/-- C5 (amended): a merchant group is reported if and only if it has at
least 2 members and every member's absolute amount is within 10% of the
group's mean absolute amount; a failing group contributes no entry at
all. -/
theorem repeated_expense_group_iff (txns : List Transaction) (key : String)
    (g : List Transaction) (hmem : (key, g) ∈ groupByMerchant txns) :
    (∃ r ∈ detectRepeatedExpenses txns, r.merchantPattern = key) ↔
      (2 ≤ g.length ∧ isSimilarGroup (g.map fun t => |t.amount|)
        ((g.map fun t => |t.amount|).sum / ((g.map fun t => |t.amount|).length : ℚ))
          = true) := by
  constructor
  · rintro ⟨r, hr, hpat⟩
    obtain ⟨kg, hkg, hok⟩ := List.mem_filterMap.mp (detect_mem_iff.mp hr)
    obtain ⟨heq, hlen, hsim⟩ := processGroup_props hok
    obtain ⟨k2, g2⟩ := kg
    have hkey : k2 = key := by rw [heq] at hpat; exact hpat
    subst hkey
    have hg : g2 = g := assoc_eq_of_nodup_keys (groupByMerchant_keys_nodup txns) hkg hmem
    subst hg
    exact ⟨hlen, hsim⟩
  · rintro ⟨hlen, hsim⟩
    refine ⟨mkRepeated key g, ?_, rfl⟩
    rw [detect_mem_iff]
    exact List.mem_filterMap.mpr ⟨(key, g), hmem, processGroup_some_of hlen hsim⟩

/-- C5 counterexample: the claim's example group with amounts [100, 115] is
NOT dropped — each member deviates 7.5 from the mean 107.5, i.e. ≈ 6.98%,
within the 10% relative tolerance — so the claim's example is false on the
code: the group is reported in full. -/
theorem tolerance_example_counterexample :
    detectRepeatedExpenses [wGymA, wGymB]
      = [⟨"GYM MEMBERSHIP", 2, 215/2, 215, ["ga", "gb"], false, none⟩] ∧
    isSimilarGroup ([wGymA, wGymB].map fun t => |t.amount|)
      (([wGymA, wGymB].map fun t => |t.amount|).sum /
        ((([wGymA, wGymB].map fun t => |t.amount|)).length : ℚ)) = true := by
  constructor
  · with_unfolding_all rfl
  · with_unfolding_all rfl

/-- Witness for C5 (amended): the [100, 109.99, 91] group (deviations
within 10% of the mean ≈ 100.33) qualifies and is reported. -/
theorem repeated_expense_group_iff_witness :
    ((("YOGA STUDIO" : String), [wYogaA, wYogaB, wYogaC])
        ∈ groupByMerchant [wYogaA, wYogaB, wYogaC]) ∧
    ((∃ r ∈ detectRepeatedExpenses [wYogaA, wYogaB, wYogaC],
        r.merchantPattern = "YOGA STUDIO") ↔
      (2 ≤ ([wYogaA, wYogaB, wYogaC] : List Transaction).length ∧
        isSimilarGroup ([wYogaA, wYogaB, wYogaC].map fun t => |t.amount|)
          (([wYogaA, wYogaB, wYogaC].map fun t => |t.amount|).sum /
            ((([wYogaA, wYogaB, wYogaC].map fun t => |t.amount|)).length : ℚ)) = true)) := by
  have hgrp : groupByMerchant [wYogaA, wYogaB, wYogaC]
      = [("YOGA STUDIO", [wYogaA, wYogaB, wYogaC])] := by
    with_unfolding_all rfl
  have hmem : (("YOGA STUDIO" : String), [wYogaA, wYogaB, wYogaC])
      ∈ groupByMerchant [wYogaA, wYogaB, wYogaC] := by
    rw [hgrp]
    exact List.mem_singleton.mpr rfl
  exact ⟨hmem, repeated_expense_group_iff [wYogaA, wYogaB, wYogaC] "YOGA STUDIO"
    [wYogaA, wYogaB, wYogaC] hmem⟩

/-- C10: every reported `RepeatedExpense` has `occurrences` equal to the
length of `transactionIds` and at least 2, `totalAmount` equal to the sum
of the group's absolute amounts, and `averageAmount · occurrences =
totalAmount`. -/
theorem repeated_expense_record_invariants (txns : List Transaction)
    (r : RepeatedExpense) (hr : r ∈ detectRepeatedExpenses txns) :
    r.occurrences = r.transactionIds.length ∧ 2 ≤ r.occurrences ∧
    (∃ g, (r.merchantPattern, g) ∈ groupByMerchant txns ∧
      r.occurrences = g.length ∧ r.transactionIds = g.map (fun t => t.id) ∧
      r.totalAmount = ((g.map fun t => |t.amount|)).sum) ∧
    r.averageAmount * (r.occurrences : ℚ) = r.totalAmount := by
  obtain ⟨kg, hkg, hok⟩ := List.mem_filterMap.mp (detect_mem_iff.mp hr)
  obtain ⟨heq, hlen, -⟩ := processGroup_props hok
  obtain ⟨k2, g2⟩ := kg
  subst heq
  refine ⟨by simp [mkRepeated], by simpa [mkRepeated] using hlen, ⟨g2, hkg, ?_, ?_, ?_⟩, ?_⟩
  · rfl
  · rfl
  · rfl
  · have hlen2 : 2 ≤ g2.length := hlen
    simp only [mkRepeated]
    rw [List.length_map]
    exact div_mul_cancel₀ _ (Nat.cast_ne_zero.mpr (by omega))

/-- Witness for C10: the record invariants hold for the concrete reported
subscription group. -/
theorem repeated_expense_record_invariants_witness :
    (mkRepeated "NETFLIX.COM" [wNfx1, wNfx2, wNfx3]
        ∈ detectRepeatedExpenses [wNfx1, wNfx2, wNfx3]) ∧
    ((mkRepeated "NETFLIX.COM" [wNfx1, wNfx2, wNfx3]).occurrences
        = (mkRepeated "NETFLIX.COM" [wNfx1, wNfx2, wNfx3]).transactionIds.length ∧
      2 ≤ (mkRepeated "NETFLIX.COM" [wNfx1, wNfx2, wNfx3]).occurrences ∧
      (∃ g, ((mkRepeated "NETFLIX.COM" [wNfx1, wNfx2, wNfx3]).merchantPattern, g)
          ∈ groupByMerchant [wNfx1, wNfx2, wNfx3] ∧
        (mkRepeated "NETFLIX.COM" [wNfx1, wNfx2, wNfx3]).occurrences = g.length ∧
        (mkRepeated "NETFLIX.COM" [wNfx1, wNfx2, wNfx3]).transactionIds
          = g.map (fun t => t.id) ∧
        (mkRepeated "NETFLIX.COM" [wNfx1, wNfx2, wNfx3]).totalAmount
          = ((g.map fun t => |t.amount|)).sum) ∧
      (mkRepeated "NETFLIX.COM" [wNfx1, wNfx2, wNfx3]).averageAmount *
          ((mkRepeated "NETFLIX.COM" [wNfx1, wNfx2, wNfx3]).occurrences : ℚ)
        = (mkRepeated "NETFLIX.COM" [wNfx1, wNfx2, wNfx3]).totalAmount) := by
  have hdet : detectRepeatedExpenses [wNfx1, wNfx2, wNfx3]
      = [mkRepeated "NETFLIX.COM" [wNfx1, wNfx2, wNfx3]] := by
    with_unfolding_all rfl
  have hmem : mkRepeated "NETFLIX.COM" [wNfx1, wNfx2, wNfx3]
      ∈ detectRepeatedExpenses [wNfx1, wNfx2, wNfx3] := by
    rw [hdet]
    exact List.mem_singleton.mpr rfl
  exact ⟨hmem, repeated_expense_record_invariants [wNfx1, wNfx2, wNfx3] _ hmem⟩

/-! ### Categorization engine -/

/-- C6 counterexample: with no category patterns and two enabled legacy
rules that both match, `categorize` returns the first-declared rule's
category (priority 20) — not the priority-10 one that the claim's
ascending-priority ordering predicts (computed by `specLegacyFallback`,
which follows the spec's wording). -/
theorem legacy_fallback_counterexample :
    categorize icontains [] wLegacyRules [] wUncatTxn = some "catA" ∧
    specLegacyFallback icontains wLegacyRules "LEGACY TEST PAYMENT" = some "catB" ∧
    (some "catA" : Option String) ≠ some "catB" := by
  refine ⟨by with_unfolding_all rfl, by with_unfolding_all rfl, by decide⟩

/-- C6 (amended): for a transaction with no (non-empty) description-mapping
entry and no matching enabled category pattern, `categorize` falls back to
the flat legacy rule list evaluated in declaration order (the legacy list
is not re-sorted by priority), returning the categoryId of the first
enabled legacy rule whose pattern matches. -/
theorem legacy_fallback_declaration_order (test : RegexTest) (categories : List Category)
    (rules : List CategorizationRule) (maps : List (String × String)) (txn : Transaction)
    (hmap : ∀ c, maps.lookup txn.description = some c → c = "")
    (hpat : ∀ cat ∈ categories, ∀ p ∈ cat.patterns, p.enabled = true →
      test p.pattern txn.description = false) :
    categorize test categories rules maps txn
      = ((rules.filter (fun r => r.enabled)).find?
          (fun r => test r.pattern txn.description)).map (fun r => r.categoryId) := by
  have hmapped :
      (match maps.lookup txn.description with
        | some c => if c = "" then none else some c
        | none => none) = (none : Option String) := by
    cases hl : maps.lookup txn.description with
    | none => rfl
    | some c => simp [hmap c hl]
  have hfind : (List.insertionSort (fun a b => a.priority ≤ b.priority)
      (allCategoryPatterns categories)).find?
        (fun item => test item.pattern txn.description) = none := by
    rw [List.find?_eq_none]
    intro item hitem
    have hmem : item ∈ allCategoryPatterns categories :=
      (List.perm_insertionSort _ _).subset hitem
    unfold allCategoryPatterns at hmem
    rw [List.mem_flatten] at hmem
    obtain ⟨block, hblock, hitem2⟩ := hmem
    rw [List.mem_map] at hblock
    obtain ⟨cat, hcat, hblockeq⟩ := hblock
    rw [← hblockeq] at hitem2
    rw [List.mem_map] at hitem2
    obtain ⟨p, hp, hpeq⟩ := hitem2
    rw [List.mem_filter] at hp
    rw [← hpeq]
    simp only [Bool.not_eq_true]
    exact hpat cat hcat p hp.1 hp.2
  have hlegacy : (legacyMatchItems rules).find?
      (fun item => test item.pattern txn.description)
      = ((rules.filter (fun r => r.enabled)).find?
          (fun r => test r.pattern txn.description)).map
          (fun r => PatternMatchItem.mk r.categoryId r.priority r.pattern) := by
    unfold legacyMatchItems
    rw [List.find?_map]
    rfl
  unfold categorize
  simp only [hmapped, hfind, hlegacy]
  cases (rules.filter (fun r => r.enabled)).find? (fun r => test r.pattern txn.description) with
  | none => rfl
  | some r => rfl

/-- Witness for C6 (amended): at the concrete engine the fallback returns
the first-declared matching legacy rule's category. -/
theorem legacy_fallback_declaration_order_witness :
    (categorize icontains [] wLegacyRules [] wUncatTxn
      = ((wLegacyRules.filter (fun r => r.enabled)).find?
          (fun r => icontains r.pattern wUncatTxn.description)).map (fun r => r.categoryId)) ∧
    ((wLegacyRules.filter (fun r => r.enabled)).find?
        (fun r => icontains r.pattern wUncatTxn.description)).map (fun r => r.categoryId)
      = some "catA" := by
  refine ⟨?_, by with_unfolding_all rfl⟩
  exact legacy_fallback_declaration_order icontains [] wLegacyRules [] wUncatTxn
    (fun c hc => by simp [List.lookup] at hc) (fun cat hcat => by simp at hcat)

/-- C7 counterexample: `batchCategorize` writes the matched category into
the input transaction's `categoryId` field — the post-state of the array
differs from the input, so the no-mutation claim fails. -/
theorem batch_categorize_mutation_counterexample :
    (batchCategorize icontains [] wLegacyRules [] [wUncatTxn]).map (fun t => t.categoryId)
      = [some "catA"] ∧
    ([wUncatTxn].map (fun t => t.categoryId) = [(none : Option String)]) ∧
    batchCategorize icontains [] wLegacyRules [] [wUncatTxn] ≠ [wUncatTxn] := by
  have h1 : (batchCategorize icontains [] wLegacyRules [] [wUncatTxn]).map
      (fun t => t.categoryId) = [some "catA"] := by
    with_unfolding_all rfl
  refine ⟨h1, rfl, fun h => ?_⟩
  rw [h] at h1
  simp [wUncatTxn] at h1

/-- C7 (amended): `batchCategorize` writes only `categoryId`, and only on
transactions that are neither manually categorized nor already (truthily)
categorized; every other field of every transaction is unchanged. -/
theorem batch_categorize_frame (test : RegexTest) (categories : List Category)
    (rules : List CategorizationRule) (maps : List (String × String))
    (txns : List Transaction) :
    ((batchCategorize test categories rules maps txns).map eraseCategoryId
        = txns.map eraseCategoryId) ∧
    List.Forall₂ (fun t t2 =>
        ((t.isManuallyCategorized = true ∨ jsTruthy t.categoryId = true) → t2 = t) ∧
        (t.isManuallyCategorized = false ∧ jsTruthy t.categoryId = false →
          t2 = { t with categoryId := categorize test categories rules maps t }))
      txns (batchCategorize test categories rules maps txns) := by
  constructor
  · unfold batchCategorize
    rw [List.map_map]
    apply List.map_congr_left
    intro t _
    simp only [Function.comp_apply]
    split <;> rfl
  · unfold batchCategorize
    rw [List.forall₂_map_right_iff]
    rw [List.forall₂_same]
    intro t _
    by_cases hc : t.isManuallyCategorized = false ∧ jsTruthy t.categoryId = false
    · rw [if_pos hc]
      constructor
      · rintro (h | h)
        · rw [h] at hc; simp at hc
        · rw [h] at hc; simp at hc
      · intro _; rfl
    · rw [if_neg hc]
      exact ⟨fun _ => rfl, fun h2 => absurd h2 hc⟩

/-- Witness for C7 (amended): the frame property at a concrete engine and
transaction list. -/
theorem batch_categorize_frame_witness :
    ((batchCategorize icontains [] wLegacyRules [] [wUncatTxn]).map eraseCategoryId
        = [wUncatTxn].map eraseCategoryId) ∧
    List.Forall₂ (fun t t2 =>
        ((t.isManuallyCategorized = true ∨ jsTruthy t.categoryId = true) → t2 = t) ∧
        (t.isManuallyCategorized = false ∧ jsTruthy t.categoryId = false →
          t2 = { t with categoryId := categorize icontains [] wLegacyRules [] t }))
      [wUncatTxn] (batchCategorize icontains [] wLegacyRules [] [wUncatTxn]) :=
  batch_categorize_frame icontains [] wLegacyRules [] [wUncatTxn]

/-! ### Identity utilities -/

/-- C8: the transaction fingerprint is deterministic — two invocations in
different nondeterministic environments, with identical (date, amount,
description, accountId), return the same id — and merging a re-import of
identically-fingerprinted transactions through the dedup-by-id step adds
nothing. -/
theorem fingerprint_deterministic (sha256hex : String → String) (dateISO : Int → String)
    (numToString : ℚ → String) (cryptoAvailable : Bool) (env1 env2 : JSEnv)
    (date : Int) (amount : ℚ) (description : String) (accountId : Option String) :
    (generateTransactionId sha256hex dateISO numToString cryptoAvailable env1 date amount
        description accountId
      = generateTransactionId sha256hex dateISO numToString cryptoAvailable env2 date amount
        description accountId) ∧
    (∀ txns : List Transaction, addTransactionsDedup txns txns = txns) := by
  refine ⟨rfl, fun txns => ?_⟩
  unfold addTransactionsDedup
  have hnil : txns.filter (fun t => !((txns.map (fun e => e.id)).contains t.id)) = [] := by
    rw [List.filter_eq_nil_iff]
    intro t ht
    simp only [Bool.not_eq_true']
    intro hfalse
    have hmem : t.id ∈ txns.map (fun e => e.id) := List.mem_map.mpr ⟨t, ht, rfl⟩
    have h2 : (txns.map (fun e => e.id)).contains t.id = true := List.elem_iff.mpr hmem
    rw [h2] at hfalse
    exact Bool.noConfusion hfalse
  rw [hnil, List.append_nil]


theorem splitAtGt_append {nm : List Char} (hgt : '>' ∉ nm) (rest : List Char) :
    splitAtGt (nm ++ '>' :: rest) = some (nm, rest) := by
  induction nm with
  | nil => simp [splitAtGt]
  | cons c cs ih =>
    have hc : c ≠ '>' := fun h => hgt (h ▸ List.mem_cons_self c cs)
    have hcs : '>' ∉ cs := fun h => hgt (List.mem_cons_of_mem c h)
    simp only [List.cons_append, splitAtGt, if_neg hc, List.append_eq, ih hcs]

theorem convertGo_open {nm : List Char} (hgt : '>' ∉ nm) (hsl : nm.head? ≠ some '/')
    (cs : List Char) (S : List (List Char)) :
    convertGo (openTagC nm ++ cs) S
      = (flushLeaf S).1 ++ openTagC nm ++ convertGo cs (nm :: (flushLeaf S).2) := by
  have h1 : openTagC nm ++ cs = '<' :: (nm ++ '>' :: cs) := by simp [openTagC]
  rw [h1, convertGo, if_pos rfl]
  split
  · next heq =>
    rw [splitAtGt_append hgt] at heq
    exact Option.noConfusion heq
  · next tagContent rest heq =>
    rw [splitAtGt_append hgt] at heq
    injection heq with heq2
    injection heq2 with ha hb
    subst ha
    subst hb
    split
    · next nm1 h2 =>
      exact absurd rfl hsl
    · rfl



theorem convertGo_nil (S : List (List Char)) : convertGo [] S = closeAllTags S := by
  simp [convertGo]

theorem convertGo_text {c : Char} (hc : c ≠ '<') (cs : List Char) (S : List (List Char)) :
    convertGo (c :: cs) S = c :: convertGo cs S := by
  rw [convertGo]
  simp [hc]

theorem convertGo_textrun {v : List Char} (hv : '<' ∉ v) (cs : List Char)
    (S : List (List Char)) :
    convertGo (v ++ cs) S = v ++ convertGo cs S := by
  induction v with
  | nil => simp
  | cons c t ih =>
    have hc : c ≠ '<' := fun h => hv (h ▸ List.mem_cons_self c t)
    have ht : '<' ∉ t := fun h => hv (List.mem_cons_of_mem c h)
    simp only [List.cons_append, convertGo_text hc, ih ht]

theorem convertGo_close {nm : List Char} (hgt : '>' ∉ nm) (cs : List Char)
    (S : List (List Char)) :
    convertGo (closeTagC nm ++ cs) S
      = (closeUntil nm S).1 ++ convertGo cs (closeUntil nm S).2 := by
  have h1 : closeTagC nm ++ cs = '<' :: (('/' :: nm) ++ '>' :: cs) := by simp [closeTagC]
  have hgt2 : '>' ∉ '/' :: nm := by simp [hgt]
  rw [h1, convertGo, if_pos rfl]
  split
  · next heq =>
    rw [splitAtGt_append hgt2] at heq
    exact Option.noConfusion heq
  · next tagContent rest heq =>
    rw [splitAtGt_append hgt2] at heq
    injection heq with heq2
    injection heq2 with ha hb
    subst hb
    split
    · next heq2 tail =>
      injection ha with h2 h3
      subst h3
      rfl
    · next a b c =>
      exfalso
      have heq3 : splitAtGt ('/' :: nm ++ '>' :: cs) = some ('/' :: nm, cs) := by
        rw [← ha] at heq
        exact heq
      exact c nm heq3 ha.symm (proof_irrel_heq _ _)



theorem isContainer_chars {n : List Char} (h : isContainer n = true) :
    ('>' ∉ n) ∧ n.head? ≠ some '/' ∧ n ≠ [] := by
  have hmem : String.mk n ∈ containerTags := by
    simpa [isContainer] using h
  simp only [containerTags, List.mem_cons, List.not_mem_nil, or_false] at hmem
  rcases hmem with h|h|h|h|h|h|h|h|h|h|h|h|h|h|h|h|h <;>
    (have h2 : n = _ := congrArg String.data h; subst h2; refine ⟨by decide, by decide, by decide⟩)

theorem flushLeaf_pend {p : List (List Char)} {n : List Char} (hp : pendOK p = true)
    (hn : isContainer n = true) (S : List (List Char)) :
    flushLeaf (p ++ n :: S) = (closeAllTags p, n :: S) := by
  match p with
  | [] =>
    simp only [List.nil_append, flushLeaf, hn, if_true, closeAllTags]
  | [l] =>
    have hl : isContainer l = false := by simpa [pendOK] using hp
    simp [flushLeaf, hl, closeAllTags]
  | a :: b :: rest =>
    simp [pendOK] at hp

theorem closeUntil_pend {p : List (List Char)} {n : List Char} (hp : pendOK p = true)
    (hn : isContainer n = true) (S : List (List Char)) :
    closeUntil n (p ++ n :: S) = (closeAllTags p ++ closeTagC n, S) := by
  match p with
  | [] =>
    simp [closeUntil, hn, closeAllTags]
  | [l] =>
    have hl : isContainer l = false := by simpa [pendOK] using hp
    have hln : l ≠ n := by
      intro he
      rw [he, hn] at hl
      exact Bool.noConfusion hl
    simp [closeUntil, hl, hln, hn, closeAllTags]
  | a :: b :: rest =>
    simp [pendOK] at hp



theorem wf_leaf {n v : String} {rest : OFXForest}
    (h : wfForest (.leaf n v rest) = true) :
    goodName n = true ∧ isContainer n.data = false ∧ ('<' ∈ v.data) = False ∧
      wfForest rest = true := by
  simpa [wfForest] using h

theorem wf_node {n : String} {c rest : OFXForest}
    (h : wfForest (.node n c rest) = true) :
    goodName n = true ∧ isContainer n.data = true ∧ wfForest c = true ∧
      wfForest rest = true := by
  simpa [wfForest] using h

theorem goodName_chars {n : String} (h : goodName n = true) :
    ('>' ∉ n.data) ∧ n.data.head? ≠ some '/' := by
  have h2 := by simpa [goodName] using h
  exact ⟨h2.2.2.1, h2.2.1⟩

theorem convertGo_spec (f : OFXForest) (hf : wfForest f = true) :
    ∀ (p : List (List Char)) (n : List Char) (S : List (List Char)) (rest : List Char),
      pendOK p = true → isContainer n = true →
      convertGo (soupF f ++ (closeTagC n ++ rest)) (p ++ n :: S)
        = closeAllTags p ++ (closedF f ++ (closeTagC n ++ convertGo rest S)) := by
  induction f with
  | nil =>
    intro p n S rest hp hn
    obtain ⟨hgt, -, -⟩ := isContainer_chars hn
    simp only [soupF, closedF, List.nil_append]
    rw [convertGo_close hgt, closeUntil_pend hp hn]
    simp [List.append_assoc]
  | leaf l v frest ih =>
    intro p n S rest hp hn
    obtain ⟨hgood, hleaf, hv, hwf⟩ := wf_leaf hf
    obtain ⟨hgt, hsl⟩ := goodName_chars hgood
    simp only [soupF, closedF, List.append_assoc]
    rw [convertGo_open hgt hsl, flushLeaf_pend hp hn]
    rw [convertGo_textrun (by simpa using hv)]
    have ihx := ih hwf [l.data] n S rest (by simp [pendOK, hleaf]) hn
    simp only [List.singleton_append] at ihx
    rw [ihx]
    simp [closeAllTags, List.append_assoc]
  | node m c frest ihc ihr =>
    intro p n S rest hp hn
    obtain ⟨hgood, hcont, hwfc, hwfr⟩ := wf_node hf
    obtain ⟨hgt, hsl⟩ := goodName_chars hgood
    simp only [soupF, closedF, List.append_assoc]
    rw [convertGo_open hgt hsl, flushLeaf_pend hp hn]
    have ihx := ihc hwfc [] m.data (n :: S) (soupF frest ++ (closeTagC n ++ rest))
      (by simp [pendOK]) hcont
    simp only [List.nil_append, closeAllTags] at ihx
    rw [ihx]
    have ihy := ihr hwfr [] n S rest (by simp [pendOK]) hn
    simp only [List.nil_append, closeAllTags] at ihy
    rw [ihy]
    simp [List.append_assoc]



theorem flushLeaf_pend_nil {p : List (List Char)} (hp : pendOK p = true) :
    flushLeaf p = (closeAllTags p, []) := by
  match p with
  | [] => simp [flushLeaf, closeAllTags]
  | [l] =>
    have hl : isContainer l = false := by simpa [pendOK] using hp
    simp [flushLeaf, hl, closeAllTags]
  | a :: b :: rest => simp [pendOK] at hp

theorem convertGo_top (f : OFXForest) (hf : wfForest f = true) :
    ∀ (p : List (List Char)), pendOK p = true →
      convertGo (soupF f) p = closeAllTags p ++ closedF f := by
  induction f with
  | nil =>
    intro p hp
    simp [soupF, closedF, convertGo_nil]
  | leaf l v frest ih =>
    intro p hp
    obtain ⟨hgood, hleaf, hv, hwf⟩ := wf_leaf hf
    obtain ⟨hgt, hsl⟩ := goodName_chars hgood
    simp only [soupF, closedF, List.append_assoc]
    rw [convertGo_open hgt hsl, flushLeaf_pend_nil hp]
    rw [convertGo_textrun (by simpa using hv)]
    rw [ih hwf [l.data] (by simp [pendOK, hleaf])]
    simp [closeAllTags, List.append_assoc]
  | node m c frest ihc ihr =>
    intro p hp
    obtain ⟨hgood, hcont, hwfc, hwfr⟩ := wf_node hf
    obtain ⟨hgt, hsl⟩ := goodName_chars hgood
    simp only [soupF, closedF, List.append_assoc]
    rw [convertGo_open hgt hsl, flushLeaf_pend_nil hp]
    have ihx := convertGo_spec c hwfc [] m.data [] (soupF frest) (by simp [pendOK]) hcont
    simp only [List.nil_append, closeAllTags] at ihx
    rw [ihx]
    rw [ihr hwfr [] (by simp [pendOK])]
    simp [closeAllTags, List.append_assoc]

theorem convertOFXToXML_soup (f : OFXForest) (hf : wfForest f = true) :
    convertOFXToXML (String.mk (soupF f)) = String.mk (closedF f) := by
  unfold convertOFXToXML
  have h := convertGo_top f hf [] (by simp [pendOK])
  simp only [closeAllTags, List.nil_append] at h
  exact congrArg String.mk h

theorem xmlWFGo_text {c : Char} (hc : c ≠ '<') (cs : List Char) (S : List (List Char)) :
    xmlWFGo (c :: cs) S = xmlWFGo cs S := by
  rw [xmlWFGo]
  simp [hc]

theorem xmlWFGo_textrun {v : List Char} (hv : '<' ∉ v) (cs : List Char)
    (S : List (List Char)) :
    xmlWFGo (v ++ cs) S = xmlWFGo cs S := by
  induction v with
  | nil => simp
  | cons c t ih =>
    have hc : c ≠ '<' := fun h => hv (h ▸ List.mem_cons_self c t)
    have ht : '<' ∉ t := fun h => hv (List.mem_cons_of_mem c h)
    simp only [List.cons_append, xmlWFGo_text hc, ih ht]

theorem xmlWFGo_open {nm : List Char} (hgt : '>' ∉ nm) (hsl : nm.head? ≠ some '/')
    (cs : List Char) (S : List (List Char)) :
    xmlWFGo (openTagC nm ++ cs) S = xmlWFGo cs (nm :: S) := by
  have h1 : openTagC nm ++ cs = '<' :: (nm ++ '>' :: cs) := by simp [openTagC]
  rw [h1, xmlWFGo, if_pos rfl]
  split
  · next heq =>
    rw [splitAtGt_append hgt] at heq
    exact Option.noConfusion heq
  · next tagContent rest heq =>
    rw [splitAtGt_append hgt] at heq
    injection heq with heq2
    injection heq2 with ha hb
    subst ha
    subst hb
    split
    · next nm1 h2 =>
      exact absurd rfl hsl
    · rfl

theorem xmlWFGo_close {nm : List Char} (hgt : '>' ∉ nm) (cs : List Char)
    (st : List (List Char)) :
    xmlWFGo (closeTagC nm ++ cs) (nm :: st) = xmlWFGo cs st := by
  have h1 : closeTagC nm ++ cs = '<' :: (('/' :: nm) ++ '>' :: cs) := by simp [closeTagC]
  have hgt2 : '>' ∉ '/' :: nm := by simp [hgt]
  rw [h1, xmlWFGo, if_pos rfl]
  split
  · next heq =>
    rw [splitAtGt_append hgt2] at heq
    exact Option.noConfusion heq
  · next tagContent rest heq =>
    rw [splitAtGt_append hgt2] at heq
    injection heq with heq2
    injection heq2 with ha hb
    subst hb
    split
    · next heq2 tail =>
      injection ha with h2 h3
      subst h3
      simp
    · next a b c2 =>
      exfalso
      have heq3 : splitAtGt ('/' :: nm ++ '>' :: cs) = some ('/' :: nm, cs) := by
        rw [← ha] at heq
        exact heq
      exact c2 nm heq3 ha.symm (proof_irrel_heq _ _)

theorem closedF_wfGo (f : OFXForest) (hf : wfForest f = true) :
    ∀ (cs : List Char) (S : List (List Char)),
      xmlWFGo (closedF f ++ cs) S = xmlWFGo cs S := by
  induction f with
  | nil => intro cs S; simp [closedF]
  | leaf l v frest ih =>
    intro cs S
    obtain ⟨hgood, hleaf, hv, hwf⟩ := wf_leaf hf
    obtain ⟨hgt, hsl⟩ := goodName_chars hgood
    simp only [closedF, List.append_assoc]
    rw [xmlWFGo_open hgt hsl, xmlWFGo_textrun (by simpa using hv), xmlWFGo_close hgt, ih hwf]
  | node m c frest ihc ihr =>
    intro cs S
    obtain ⟨hgood, hcont, hwfc, hwfr⟩ := wf_node hf
    obtain ⟨hgt, hsl⟩ := goodName_chars hgood
    simp only [closedF, List.append_assoc]
    rw [xmlWFGo_open hgt hsl, ihc hwfc, xmlWFGo_close hgt, ihr hwfr]

theorem closedF_wellFormed (f : OFXForest) (hf : wfForest f = true) :
    xmlWellFormed (String.mk (closedF f)) = true := by
  unfold xmlWellFormed
  have h := closedF_wfGo f hf [] []
  rw [List.append_nil] at h
  rw [h]
  simp [xmlWFGo]

/-- C3: for every hand-built minimal tag-soup fragment with nested leaf and
container tags (including a leaf tag immediately followed by a sibling leaf
tag with no closer), the repaired markup produced by the SGML-to-XML
reconstruction equals the fully-closed rendering, parses as well-formed, and
every per-tag field extraction agrees with the fully-closed fragment. -/
theorem tag_soup_repair_round_trip (f : OFXForest) (hf : wfForest f = true) :
    convertOFXToXML (String.mk (soupF f)) = String.mk (closedF f) ∧
    xmlWellFormed (convertOFXToXML (String.mk (soupF f))) = true ∧
    ∀ tag, extractTagText tag (convertOFXToXML (String.mk (soupF f)))
      = extractTagText tag (String.mk (closedF f)) := by
  have heq := convertOFXToXML_soup f hf
  refine ⟨heq, ?_, fun tag => by rw [heq]⟩
  rw [heq]
  exact closedF_wellFormed f hf

/-- Witness for C3 at a concrete fragment. -/
theorem tag_soup_repair_round_trip_witness :
    wfForest wFragment = true ∧
    (convertOFXToXML (String.mk (soupF wFragment)) = String.mk (closedF wFragment) ∧
     xmlWellFormed (convertOFXToXML (String.mk (soupF wFragment))) = true ∧
     ∀ tag, extractTagText tag (convertOFXToXML (String.mk (soupF wFragment)))
       = extractTagText tag (String.mk (closedF wFragment))) :=
  ⟨by decide, tag_soup_repair_round_trip wFragment (by decide)⟩

end BudgetCore
